import Mathlib

/-!
# Verification of the hybrid-transpiler core pipeline

A shallow embedding, in Lean 4, of the C++ sources of the `hybrid-transpiler`
repository (structural parser, IR model, template analyzer, async/coroutine
analyzer, pipeline orchestrator), together with theorems settling the frozen
claims about that code.

Conventions used throughout:
* C++ `std::string` is modelled as `String` (processed as `List Char` where
  the C++ code indexes into the string).
* `std::shared_ptr<T>` fields are modelled as `Option T`; a `nullptr`
  dereference is modelled by propagating `none`.
* Calls into `std::regex` are modelled by a small backtracking regular
  expression engine (`RE`, `mrun`) implementing the ECMAScript semantics used
  by `std::regex` (leftmost match, priority order of alternatives, greedy and
  lazy quantifiers, capture groups); each C++ pattern is transcribed into an
  `RE` term.
* Out-of-bounds string accesses (`std::string::back()` on an empty string)
  are modelled as `none` results.
-/

set_option maxHeartbeats 4000000
set_option maxRecDepth 8000

namespace HybridTranspiler

/-! ## Character classes

ASCII character classes as used by `std::isspace` (C locale) and by the
ECMAScript escapes `\s` and `\w` in `std::regex`. -/

/-- `std::isspace` in the C locale: space, tab, newline, carriage return,
vertical tab, form feed.  The same set is matched by ECMAScript `\s` on
ASCII input. -/
def isSpaceChar (c : Char) : Bool :=
  c = ' ' || c = '\t' || c = '\n' || c = '\r' || c = '\x0b' || c = '\x0c'

/-- ECMAScript `\w`: letters, digits and underscore. -/
def isWordChar (c : Char) : Bool :=
  c.isAlpha || c.isDigit || c = '_'

/-- ECMAScript `[a-zA-Z_]`. -/
def isIdentStart (c : Char) : Bool :=
  c.isAlpha || c = '_'

/-- ECMAScript line terminators as implemented by `std::regex` over `char`
(both libstdc++ and libc++ make `.` reject exactly these two): line feed
and carriage return.  `.` matches any character except a line
terminator. -/
def isLineTerm (c : Char) : Bool :=
  c = '\n' || c = '\r'

/-! ## Shared string utilities of the C++ sources -/

/-- `SimpleCppParser::trim`: strips leading and trailing `std::isspace`
characters. -/
def trimCpp (s : String) : String :=
  String.mk (((s.data.dropWhile isSpaceChar).reverse.dropWhile isSpaceChar).reverse)

/-- The character set `" \t\n\r"` used by `TemplateAnalyzer::trim` and
`AsyncAnalyzer::trim` (`find_first_not_of(" \t\n\r")`). -/
def isTrim4Char (c : Char) : Bool :=
  c = ' ' || c = '\t' || c = '\n' || c = '\r'

/-- `TemplateAnalyzer::trim` / `AsyncAnalyzer::trim`: strips leading and
trailing characters of `" \t\n\r"` (via `find_first_not_of` /
`find_last_not_of`). -/
def trimAz (s : String) : String :=
  String.mk (((s.data.dropWhile isTrim4Char).reverse.dropWhile isTrim4Char).reverse)

/-- Does `l` begin with `needle`? (helper for substring search). -/
def beginsWith : List Char → List Char → Bool
  | [], _ => true
  | _ :: _, [] => false
  | a :: as, b :: bs => a = b && beginsWith as bs

/-- `hay.find(needle) != std::string::npos`: substring containment. -/
def containsSub (needle : List Char) : List Char → Bool
  | [] => needle.isEmpty
  | c :: t => beginsWith needle (c :: t) || containsSub needle t

/-- `std::string` substring containment on `String`s
(`hay.find(pat) != npos`). -/
def strContains (hay pat : String) : Bool :=
  containsSub pat.data hay.data

/-- `s.find(pre) == 0`: does `s` start with `pre`?  (Note the C++ prefix
test also accepts longer words, e.g. `"constant".find("const") == 0`.) -/
def strStarts (s pre : String) : Bool :=
  beginsWith pre.data s.data

/-- `TemplateAnalyzer::split`: `std::getline`-based split on a delimiter.
`std::getline` consumes up to and including the delimiter and fails only at
end of input, so a trailing delimiter does not produce a trailing empty
segment, and an empty input produces no segments. -/
def splitCppGo (d : Char) (cur : List Char) : List Char → List (List Char)
  | [] => [cur.reverse]
  | c :: t =>
    if c = d then
      cur.reverse :: (match t with
        | [] => []
        | _ :: _ => splitCppGo d [] t)
    else
      splitCppGo d (c :: cur) t

/-- `TemplateAnalyzer::split (str, delim)`. -/
def splitCpp (d : Char) (s : String) : List String :=
  match s.data with
  | [] => []
  | c :: t => (splitCppGo d [] (c :: t)).map String.mk

/-! ## The IR type model (`include/ir.h`)

Only the fields that the embedded code reads or writes are carried; the
remaining `ir.h` fields (size information, exception metadata, threading
descriptors, …) are never touched by the code under verification. -/

/-- `TypeKind` (`include/ir.h`). -/
inductive TypeKind where
  | Void | Bool | Integer | Float | Pointer | Reference | Array | Struct
  | Class | Enum | Function | Template
  | StdVector | StdList | StdDeque | StdMap | StdUnorderedMap | StdSet
  | StdUnorderedSet | StdString | StdPair | StdOptional
  | StdThread | StdMutex | StdRecursiveMutex | StdSharedMutex
  | StdConditionVariable | StdAtomic | StdLockGuard | StdUniqueLock
  | StdSharedLock
  | StdFuture | StdPromise | StdAsync | Coroutine | Task
  deriving DecidableEq, Repr

/-- `Type` (`include/ir.h`): kind, raw name, constness, optional nested
element type (`shared_ptr<Type> element_type`, here `Option Ty`; `Ty` is an
inductive because the C++ type tree is rebuilt fresh on every parse and is
never cyclic). -/
inductive Ty where
  | mk (kind : TypeKind) (name : String) (is_const : Bool)
       (element_type : Option Ty)
  deriving Repr

def Ty.kind : Ty → TypeKind
  | .mk k _ _ _ => k

def Ty.name : Ty → String
  | .mk _ n _ _ => n

def Ty.is_const : Ty → Bool
  | .mk _ _ c _ => c

def Ty.element_type : Ty → Option Ty
  | .mk _ _ _ e => e

/-- Overwrite the `is_const` flag (C++ `type->is_const = …`). -/
def Ty.setConst : Ty → Bool → Ty
  | .mk k n _ e, c => .mk k n c e

/-! ## `SimpleCppParser::parseType` and `mapBuiltinType` -/

/-- `SimpleCppParser::mapBuiltinType`: the fixed keyword table mapping
primitive spellings to `TypeKind`s; `nullptr` (here `none`) when the name is
not in the table. -/
def mapBuiltinType (type_name : String) : Option Ty :=
  if type_name = "void" then some (.mk .Void "void" false none)
  else if type_name = "bool" then some (.mk .Bool "bool" false none)
  else if type_name = "char" then some (.mk .Integer "char" false none)
  else if type_name = "short" then some (.mk .Integer "short" false none)
  else if type_name = "int" then some (.mk .Integer "int" false none)
  else if type_name = "long" then some (.mk .Integer "long" false none)
  else if type_name = "float" then some (.mk .Float "float" false none)
  else if type_name = "double" then some (.mk .Float "double" false none)
  else if type_name = "size_t" then some (.mk .Integer "size_t" false none)
  else none

/-- The prefix of `l` strictly before the last occurrence of `c`; all of `l`
when `c` does not occur.  Models `substr(start, rfind(c) - start)` where a
missing `rfind` result (`npos`) makes the count wrap to "rest of string". -/
def beforeLast (c : Char) (l : List Char) : List Char :=
  match l.reverse.dropWhile (fun x => x ≠ c) with
  | [] => l
  | _ :: rest => rest.reverse

/-- `SimpleCppParser::parseType`, fuelled by recursion depth.  `none` models
the undefined `std::string::back()` call on an empty string (reached when the
trimmed, `const`-stripped text is empty), propagated through the recursive
calls on element types. -/
def parseTypeF : Nat → String → Option Ty
  | 0, _ => none
  | fuel + 1, type_str =>
    let t0 := trimCpp type_str
    -- `trimmed.find("const") == 0`
    let is_const := strStarts t0 "const"
    let trimmed := if is_const then trimCpp (String.mk (t0.data.drop 5)) else t0
    match trimmed.data.getLast? with
    | none => none  -- `trimmed.back()` on the empty string
    | some lastc =>
      if lastc = '*' then
        let inner := String.mk trimmed.data.dropLast
        (parseTypeF fuel inner).map
          (fun elem => .mk .Pointer (inner ++ "*") is_const (some elem))
      else if lastc = '&' then
        let inner := String.mk trimmed.data.dropLast
        (parseTypeF fuel inner).map
          (fun elem => .mk .Reference (inner ++ "&") is_const (some elem))
      else if strStarts trimmed "std::unique_ptr<" then
        let elem_chars := beforeLast '>' (trimmed.data.drop 16)
        (parseTypeF fuel (String.mk elem_chars)).map
          (fun elem =>
            .mk .Pointer ("std::unique_ptr<" ++ String.mk elem_chars ++ ">")
              false (some elem))
      else if strStarts trimmed "std::shared_ptr<" then
        let elem_chars := beforeLast '>' (trimmed.data.drop 16)
        (parseTypeF fuel (String.mk elem_chars)).map
          (fun elem =>
            .mk .Pointer ("std::shared_ptr<" ++ String.mk elem_chars ++ ">")
              false (some elem))
      else
        match trimmed.data.findIdx? (fun c => c = '[') with
        | some bracket_pos =>
          (parseTypeF fuel (String.mk (trimmed.data.take bracket_pos))).map
            (fun elem => .mk .Array trimmed false (some elem))
        | none =>
          match mapBuiltinType trimmed with
          | some b => some (b.setConst is_const)
          | none => some (.mk .Class trimmed is_const none)

/-- `SimpleCppParser::parseType` (the fuel `length + 1` dominates the
recursion depth: every recursive call strictly shrinks the text). -/
def parseType (s : String) : Option Ty :=
  parseTypeF (s.length + 1) s

/-! ## A small ECMAScript regular-expression engine

`std::regex` with the (default) ECMAScript grammar performs leftmost search
with backtracking: alternatives are tried left to right, greedy quantifiers
try the longest repetition first, lazy quantifiers the shortest, and the
first overall success wins.  `mrun` implements exactly that strategy in
continuation-passing style; the fuel argument only bounds the recursion
depth (every quantifier body in the transcribed patterns consumes at least
one character per iteration, so the fuel chosen in `tryMatch` is never
exhausted on the inputs evaluated here). -/

/-- Regular expression ASTs: literal characters, character classes,
concatenation, prioritized alternation, capture groups, greedy and lazy
Kleene star. -/
inductive RE where
  | eps
  | ch (c : Char)
  | cls (p : Char → Bool)
  | cat (a b : RE)
  | alt (a b : RE)
  | grp (i : Nat) (a : RE)
  | starG (a : RE)
  | starL (a : RE)

/-- Concatenation of a list of regexes. -/
def RE.seq (l : List RE) : RE := l.foldr .cat .eps

/-- A literal string. -/
def RE.strLit (s : String) : RE := RE.seq (s.data.map RE.ch)

/-- Greedy `+`. -/
def RE.plusG (a : RE) : RE := .cat a (.starG a)

/-- Greedy `?` (try the present alternative first). -/
def RE.optG (a : RE) : RE := .alt a .eps

/-- Structural size, used only to compute a sufficient fuel. -/
def RE.size : RE → Nat
  | .eps => 1
  | .ch _ => 1
  | .cls _ => 1
  | .cat a b => a.size + b.size + 1
  | .alt a b => a.size + b.size + 1
  | .grp _ a => a.size + 1
  | .starG a => a.size + 1
  | .starL a => a.size + 1

/-- Capture environment: group index ↦ captured text, newest binding first
(as in ECMAScript, the latest successful traversal of a group wins). -/
abbrev Caps := List (Nat × String)

/-- The backtracking matcher in continuation-passing style.  `mrun fuel re cs
caps k` attempts to match `re` at the start of `cs`; on each success it calls
`k` with the remaining input and captures, and if `k` rejects (returns
`none`) the next alternative in ECMAScript priority order is tried. -/
def mrun : Nat → RE → List Char → Caps →
    (List Char → Caps → Option (List Char × Caps)) →
    Option (List Char × Caps)
  | 0, _, _, _, _ => none
  | fuel + 1, re, cs, caps, k =>
    match re with
    | .eps => k cs caps
    | .ch c =>
      match cs with
      | [] => none
      | x :: xs => if x = c then k xs caps else none
    | .cls p =>
      match cs with
      | [] => none
      | x :: xs => if p x then k xs caps else none
    | .cat a b =>
      mrun fuel a cs caps (fun cs' caps' => mrun fuel b cs' caps' k)
    | .alt a b =>
      match mrun fuel a cs caps k with
      | some r => some r
      | none => mrun fuel b cs caps k
    | .grp i a =>
      mrun fuel a cs caps (fun cs' caps' =>
        k cs' ((i, String.mk (cs.take (cs.length - cs'.length))) :: caps'))
    | .starG a =>
      match mrun fuel a cs caps
          (fun cs' caps' => mrun fuel (.starG a) cs' caps' k) with
      | some r => some r
      | none => k cs caps
    | .starL a =>
      match k cs caps with
      | some r => some r
      | none =>
        mrun fuel a cs caps
          (fun cs' caps' => mrun fuel (.starL a) cs' caps' k)

/-- `match[i].str()`: text of a capture group, `""` when the group did not
participate in the match. -/
def capStr (caps : Caps) (i : Nat) : String :=
  ((caps.find? (fun p => p.1 = i)).map (fun p => p.2)).getD ""

/-- `match[i].matched`. -/
def capMatched (caps : Caps) (i : Nat) : Bool :=
  (caps.find? (fun p => p.1 = i)).isSome

/-- Anchored attempt at one position: on success returns
(whole match, captures, rest of input). -/
def tryMatch (re : RE) (cs : List Char) :
    Option (List Char × Caps × List Char) :=
  match mrun ((cs.length + 2) * (re.size + 2)) re cs []
      (fun rest caps => some (rest, caps)) with
  | some (rest, caps) =>
    some (cs.take (cs.length - rest.length), caps, rest)
  | none => none

/-- `std::regex_search`: leftmost match.  Returns
(text before the match, whole match, captures, rest). -/
def searchRE (re : RE) :
    List Char → Option (List Char × List Char × Caps × List Char)
  | [] =>
    (tryMatch re []).map (fun m => ([], m.1, m.2.1, m.2.2))
  | c :: t =>
    match tryMatch re (c :: t) with
    | some m => some ([], m.1, m.2.1, m.2.2)
    | none =>
      (searchRE re t).map (fun m => (c :: m.1, m.2.1, m.2.2.1, m.2.2.2))

/-- `std::sregex_iterator`: all successive non-overlapping leftmost matches.
Returns the list of (gap before the match, whole match, captures) plus the
trailing text after the last match.  Every pattern iterated by the C++ code
only matches non-empty text, so the guard on an empty whole match is never
taken; it merely keeps the fuel argument honest. -/
def allMatchesF : Nat → RE → List Char →
    List (List Char × List Char × Caps) × List Char
  | 0, _, cs => ([], cs)
  | fuel + 1, re, cs =>
    match searchRE re cs with
    | none => ([], cs)
    | some (pre, w, caps, rest) =>
      match w with
      | [] => ([], cs)
      | _ :: _ =>
        let (ms, trail) := allMatchesF fuel re rest
        ((pre, w, caps) :: ms, trail)

/-- All matches of `re` in `cs` (fuel `length + 1` suffices because each
match consumes at least one character). -/
def allMatches (re : RE) (cs : List Char) :
    List (List Char × List Char × Caps) × List Char :=
  allMatchesF (cs.length + 1) re cs

/-- `std::regex_match`: the whole input must match.  Implemented by a
continuation that rejects unless the input is exhausted, which makes the
engine backtrack exactly as `std::regex_match` does. -/
def matchFull (re : RE) (cs : List Char) : Option Caps :=
  (mrun ((cs.length + 2) * (re.size + 2)) re cs []
    (fun rest caps => if rest.isEmpty then some (rest, caps) else none)).map
    (fun r => r.2)

/-! ## The regex patterns of the C++ sources, transcribed -/

/-- `\s*` -/
def wsS : RE := .starG (.cls isSpaceChar)

/-- `\s+` -/
def wsP : RE := RE.plusG (.cls isSpaceChar)

/-- `\w+` (`SimpleCppParser::parseBaseClasses`'s `base_pattern`). -/
def wordP : RE := RE.plusG (.cls isWordChar)

/-- `[a-zA-Z_]\w*` (`SimpleCppParser::parseFields`'s `name_pattern`). -/
def identRE : RE := .cat (.cls isIdentStart) (.starG (.cls isWordChar))

/-- `[^}]` -/
def nonBrace : RE := .cls (fun c => c ≠ '\x7d')

/-- `[^}]*(?:\{[^}]*\}[^}]*)*` — the one-level brace-tolerant body, shared
by `class_pattern` (group 3) and `method_pattern` (group 8). -/
def braceBodyRE : RE :=
  .cat (.starG nonBrace)
    (.starG (RE.seq [.ch '\x7b', .starG nonBrace, .ch '\x7d', .starG nonBrace]))

/-- `SimpleCppParser::parseClasses`'s `class_pattern`:
`class\s+(\w+)\s*(?::\s*public\s+(\w+(?:\s*,\s*\w+)*))?\s*\{([^}]*(?:\{[^}]*\}[^}]*)*)\};` -/
def classPattern : RE := RE.seq [
  RE.strLit "class", wsP, .grp 1 wordP, wsS,
  RE.optG (RE.seq [.ch ':', wsS, RE.strLit "public", wsP,
    .grp 2 (.cat wordP (.starG (RE.seq [wsS, .ch ',', wsS, wordP])))]),
  wsS, .ch '\x7b', .grp 3 braceBodyRE, RE.strLit "\x7d;"]

/-- `SimpleCppParser::parseClassBody`'s `access_pattern`:
`(private|protected|public)\s*:` -/
def accessPattern : RE := RE.seq [
  .grp 1 (.alt (RE.strLit "private")
    (.alt (RE.strLit "protected") (RE.strLit "public"))),
  wsS, .ch ':']

/-- The character class `[\w:<>,\[\]\s*&]` of `field_pattern`. -/
def fieldTypeChar (c : Char) : Bool :=
  isWordChar c || c = ':' || c = '<' || c = '>' || c = ',' ||
  c = '[' || c = ']' || isSpaceChar c || c = '*' || c = '&'

/-- The character class `[\w:<>,\s*&]` of `method_pattern` and
`param_pattern`. -/
def methodTypeChar (c : Char) : Bool :=
  isWordChar c || c = ':' || c = '<' || c = '>' || c = ',' ||
  isSpaceChar c || c = '*' || c = '&'

/-- `SimpleCppParser::parseFields`'s `field_pattern`:
`(?:const\s+)?(?:static\s+)?([a-zA-Z_][\w:<>,\[\]\s*&]*?)\s+([a-zA-Z_]\w*(?:\s*,\s*[a-zA-Z_]\w*)*)\s*;` -/
def fieldPattern : RE := RE.seq [
  RE.optG (RE.seq [RE.strLit "const", wsP]),
  RE.optG (RE.seq [RE.strLit "static", wsP]),
  .grp 1 (.cat (.cls isIdentStart) (.starL (.cls fieldTypeChar))),
  wsP,
  .grp 2 (.cat identRE (.starG (RE.seq [wsS, .ch ',', wsS, identRE]))),
  wsS, .ch ';']

/-- `SimpleCppParser::parseMethods`'s `method_pattern`:
`(virtual\s+)?(static\s+)?(?:([a-zA-Z_][\w:<>,\s*&]*?)\s+)?([a-zA-Z_]\w*)\s*\(([^)]*)\)\s*(const)?\s*(=\s*0)?\s*(?:\{([^}]*(?:\{[^}]*\}[^}]*)*)\}|;)` -/
def methodPattern : RE := RE.seq [
  RE.optG (.grp 1 (RE.seq [RE.strLit "virtual", wsP])),
  RE.optG (.grp 2 (RE.seq [RE.strLit "static", wsP])),
  RE.optG (RE.seq [
    .grp 3 (.cat (.cls isIdentStart) (.starL (.cls methodTypeChar))), wsP]),
  .grp 4 identRE,
  wsS, .ch '(', .grp 5 (.starG (.cls (fun c => c ≠ ')'))), .ch ')',
  wsS, RE.optG (.grp 6 (RE.strLit "const")),
  wsS, RE.optG (.grp 7 (RE.seq [.ch '=', wsS, .ch '0'])),
  wsS,
  .alt (RE.seq [.ch '\x7b', .grp 8 braceBodyRE, .ch '\x7d']) (.ch ';')]

/-- `SimpleCppParser::parseParameters`'s `param_pattern` (used with
`std::regex_match`):
`([a-zA-Z_][\w:<>,\s*&]*?)\s+([a-zA-Z_]\w*)(?:\s*=\s*(.+))?`
(the `.` of the default-value group excludes line terminators). -/
def paramPattern : RE := RE.seq [
  .grp 1 (.cat (.cls isIdentStart) (.starL (.cls methodTypeChar))),
  wsP, .grp 2 identRE,
  RE.optG (RE.seq [wsS, .ch '=', wsS,
    .grp 3 (RE.plusG (.cls (fun c => !isLineTerm c)))])]

/-- `AsyncAnalyzer`'s `await_pattern`: `co_await\s+([^;]+)` -/
def awaitPattern : RE := RE.seq [
  RE.strLit "co_await", wsP, .grp 1 (RE.plusG (.cls (fun c => c ≠ ';')))]

/-- `AsyncAnalyzer`'s `return_pattern`: `co_return\s+([^;]+)` -/
def coReturnPattern : RE := RE.seq [
  RE.strLit "co_return", wsP, .grp 1 (RE.plusG (.cls (fun c => c ≠ ';')))]

/-- `AsyncAnalyzer`'s `yield_pattern`: `co_yield\s+([^;]+)` -/
def yieldPattern : RE := RE.seq [
  RE.strLit "co_yield", wsP, .grp 1 (RE.plusG (.cls (fun c => c ≠ ';')))]

/-- `AsyncAnalyzer`'s `future_pattern`:
`std::future<([^>]+)>\s+(\w+)\s*(?:=|;)` -/
def futurePattern : RE := RE.seq [
  RE.strLit "std::future<", .grp 1 (RE.plusG (.cls (fun c => c ≠ '>'))),
  .ch '>', wsP, .grp 2 wordP, wsS, .alt (.ch '=') (.ch ';')]

/-- `AsyncAnalyzer`'s `promise_pattern`: `std::promise<([^>]+)>\s+(\w+)` -/
def promisePattern : RE := RE.seq [
  RE.strLit "std::promise<", .grp 1 (RE.plusG (.cls (fun c => c ≠ '>'))),
  .ch '>', wsP, .grp 2 wordP]

/-- `AsyncAnalyzer`'s `async_pattern1`:
`(?:auto|std::future<[^>]+>)\s+(\w+)\s*=\s*std::async\s*\(\s*([^,)]+)(?:,\s*([^)]*))?\)` -/
def asyncPattern1 : RE := RE.seq [
  .alt (RE.strLit "auto")
    (RE.seq [RE.strLit "std::future<",
      RE.plusG (.cls (fun c => c ≠ '>')), .ch '>']),
  wsP, .grp 1 wordP, wsS, .ch '=', wsS,
  RE.strLit "std::async", wsS, .ch '(', wsS,
  .grp 2 (RE.plusG (.cls (fun c => c ≠ ',' && c ≠ ')'))),
  RE.optG (RE.seq [.ch ',', wsS,
    .grp 3 (.starG (.cls (fun c => c ≠ ')')))]),
  .ch ')']

/-- `AsyncAnalyzer`'s `async_pattern2`:
`std::async\s*\(\s*std::launch::\w+\s*,\s*([^,)]+)(?:,\s*([^)]*))?\)` -/
def asyncPattern2 : RE := RE.seq [
  RE.strLit "std::async", wsS, .ch '(', wsS,
  RE.strLit "std::launch::", wordP, wsS, .ch ',', wsS,
  .grp 1 (RE.plusG (.cls (fun c => c ≠ ',' && c ≠ ')'))),
  RE.optG (RE.seq [.ch ',', wsS,
    .grp 2 (.starG (.cls (fun c => c ≠ ')')))]),
  .ch ')']

/-! ## `SimpleCppParser::removeComments`

The two `std::regex_replace` passes are modelled by dedicated scanners.

* `regex_replace(code, regex("//[^\n]*"), "")`: at every `//` the greedy
  `[^\n]*` consumes everything up to (excluding) the next newline or the end
  of input, the match is deleted, and scanning resumes there.
* `regex_replace(code, regex("/\*.*?\*/"), "")`: in ECMAScript, `.` does
  **not** match a line terminator, so the lazy `.*?\*/` finds the earliest
  `*/` that is separated from the opening `/*` only by non-newline
  characters; when a newline intervenes before any `*/`, the match at this
  position fails and the search moves on one character. -/

/-- The line-comment pass of `removeComments`, as a two-state scanner: the
leftmost `//` starts a match whose greedy `[^\n]*` extends to just before
the next newline (or the end of input); the match is deleted and scanning
resumes at the newline.  In skipping state (`true`) further characters up
to the newline belong to the deleted match. -/
def stripLineGo : Bool → List Char → List Char
  | false, [] => []
  | false, [c] => [c]
  | false, c :: d :: rest =>
    if c = '/' ∧ d = '/' then stripLineGo true rest
    else c :: stripLineGo false (d :: rest)
  | true, [] => []
  | true, c :: rest =>
    if c = '\n' then '\n' :: stripLineGo false rest else stripLineGo true rest

/-- `regex_replace(code, regex("//[^\n]*"), "")`. -/
def stripLineComments (l : List Char) : List Char :=
  stripLineGo false l

/-- The block-comment pass of `removeComments`, as a buffering scanner.
Outside a candidate match (`none` state), characters are copied until a
`/*` is seen, which is buffered.  Inside a candidate (`some buf`, with
`buf` holding the candidate text in reverse):

* `*/` completes the lazy `.*?\*/`, the whole candidate is deleted and
  scanning resumes after it;
* a line terminator (LF or CR) makes the match at the buffered `/*` fail
  (ECMAScript `.` does not match a line terminator), so the buffered text
  is emitted verbatim.  No new match can begin inside the failed
  candidate: a `*/` before the terminator would have completed the match,
  so none exists there, and hence no `/*` opened inside the candidate can
  close before the terminator.  Scanning therefore soundly resumes after
  the terminator;
* at the end of input the candidate likewise fails and is emitted. -/
def stripBlockGo : Option (List Char) → List Char → List Char
  | none, [] => []
  | none, [c] => [c]
  | none, c :: d :: rest =>
    if c = '/' ∧ d = '*' then stripBlockGo (some ['*', '/']) rest
    else c :: stripBlockGo none (d :: rest)
  | some buf, [] => buf.reverse
  | some buf, [c] =>
    if isLineTerm c then buf.reverse ++ c :: stripBlockGo none []
    else stripBlockGo (some (c :: buf)) []
  | some buf, c :: d :: rest =>
    if c = '*' ∧ d = '/' then stripBlockGo none rest
    else if isLineTerm c then buf.reverse ++ c :: stripBlockGo none (d :: rest)
    else stripBlockGo (some (c :: buf)) (d :: rest)

/-- `regex_replace(code, regex("/\*.*?\*/"), "")` (with ECMAScript `.`,
which excludes line terminators). -/
def stripBlockComments (l : List Char) : List Char :=
  stripBlockGo none l

/-- `SimpleCppParser::removeComments`: line comments first, then block
comments. -/
def removeComments (code : String) : String :=
  String.mk (stripBlockComments (stripLineComments code.data))

/-! ## IR record types (`include/ir.h`) -/

/-- `Variable` (`include/ir.h`). -/
structure Variable where
  name : String := ""
  type : Option Ty := none
  is_static : Bool := false
  is_const : Bool := false
  initializer : String := ""
  deriving Repr

/-- `Parameter` (`include/ir.h`). -/
structure Parameter where
  name : String := ""
  type : Option Ty := none
  has_default : Bool := false
  default_value : String := ""
  deriving Repr

/-- `TemplateParameter::Kind` (`include/ir.h`). -/
inductive TPKind where
  | TypeParam | NonType | TemplateParam
  deriving DecidableEq, Repr

/-- `TemplateParameter` (`include/ir.h`). -/
structure TemplateParameter where
  kind : TPKind := .TypeParam
  name : String := ""
  default_value : String := ""
  param_type : Option Ty := none
  constraints : List String := []
  deriving Repr

/-- `AsyncOpType` (`include/ir.h`). -/
inductive AsyncOpType where
  | CoAwait | CoReturn | CoYield
  deriving DecidableEq, Repr

/-- `AsyncOperation` (`include/ir.h`; `awaited_type` and `line_number` are
never written by the analyzer and are omitted). -/
structure AsyncOperation where
  op_type : AsyncOpType
  expression : String := ""
  deriving Repr

/-- `CoroutineInfo` (`include/ir.h`). -/
structure CoroutineInfo where
  is_coroutine : Bool := false
  async_operations : List AsyncOperation := []
  uses_co_await : Bool := false
  uses_co_return : Bool := false
  uses_co_yield : Bool := false
  is_generator : Bool := false
  deriving Repr

/-- `FutureInfo` (`include/ir.h`). -/
structure FutureInfo where
  future_var_name : String := ""
  value_type : Option Ty := none
  promise_var_name : String := ""
  is_shared_future : Bool := false
  deriving Repr

/-- `AsyncTaskInfo` (`include/ir.h`; `result_type` is never written). -/
structure AsyncTaskInfo where
  task_var_name : String := ""
  async_function_name : String := ""
  arguments : List String := []
  detached : Bool := false
  deriving Repr

/-- `Function` (`include/ir.h`), restricted to the fields that the parser
and the analyzers read or write. -/
structure Function where
  name : String := ""
  return_type : Option Ty := none
  parameters : List Parameter := []
  body : String := ""
  is_const : Bool := false
  is_static : Bool := false
  is_virtual : Bool := false
  is_pure_virtual : Bool := false
  is_constructor : Bool := false
  is_destructor : Bool := false
  is_template : Bool := false
  template_parameters : List TemplateParameter := []
  coroutine_info : CoroutineInfo := {}
  futures : List FutureInfo := []
  async_tasks : List AsyncTaskInfo := []
  is_async : Bool := false
  deriving Repr

/-- `ClassDecl` (`include/ir.h`), restricted to the fields the parser
writes (the parser never populates `access_sections`, the concurrency
descriptors or `thread_safe`). -/
structure ClassDecl where
  name : String := ""
  is_struct : Bool := false
  fields : List Variable := []
  methods : List Function := []
  base_classes : List String := []
  is_template : Bool := false
  template_parameters : List TemplateParameter := []
  deriving Repr

/-- `IR` (`include/ir.h`): root container.  `addClass` appends. -/
structure IR where
  classes : List ClassDecl := []
  functions : List Function := []
  global_vars : List Variable := []
  deriving Repr

/-! ## `SimpleCppParser` (src/parser/simple_cpp_parser.cpp) -/

/-- `SimpleCppParser::parseBaseClasses`: every `\w+` token of the base
clause becomes one base-class name. -/
def parseBaseClasses (bases_str : String) : List String :=
  (allMatches wordP bases_str.data).1.map (fun m => String.mk m.2.1)

/-- The comma-splitting loop of `SimpleCppParser::parseParameters`: split on
commas that are not inside `<...>` (depth counted over every `<` and `>`). -/
def splitParamsAngleGo (depth : Int) (cur : List Char) :
    List Char → List String
  | [] => [String.mk cur.reverse]
  | c :: t =>
    if c = '<' then splitParamsAngleGo (depth + 1) (c :: cur) t
    else if c = '>' then splitParamsAngleGo (depth - 1) (c :: cur) t
    else if c = ',' then
      if depth = 0 then String.mk cur.reverse :: splitParamsAngleGo 0 [] t
      else splitParamsAngleGo depth (c :: cur) t
    else splitParamsAngleGo depth (c :: cur) t

/-- One parameter text (already trimmed, non-empty), parsed with
`param_pattern` via `std::regex_match`; on failure the whole text is taken
as a bare type. -/
def parseParameter (trimmed : String) : Parameter :=
  match matchFull paramPattern trimmed.data with
  | some caps =>
    { name := capStr caps 2
      type := parseType (capStr caps 1)
      has_default := capMatched caps 3
      default_value := if capMatched caps 3 then capStr caps 3 else "" }
  | none => { name := "", type := parseType trimmed }

/-- `SimpleCppParser::parseParameters`. -/
def parseParameters (params_str : String) : List Parameter :=
  (splitParamsAngleGo 0 [] params_str.data).foldr
    (fun p acc =>
      let trimmed := trimCpp p
      if trimmed = "" then acc else parseParameter trimmed :: acc) []

/-- `SimpleCppParser::parseFields`: iterate `field_pattern` over the
section, skip matches whose whole text contains `(`, and append one field
per `name_pattern` token of group 2, typed by group 1. -/
def parseFieldsIn (sec : String) (class_decl : ClassDecl) : ClassDecl :=
  (allMatches fieldPattern sec.data).1.foldl
    (fun cd m =>
      if containsSub ['('] m.2.1 then cd
      else
        let type_str := capStr m.2.2 1
        let names := (allMatches identRE (capStr m.2.2 2).data).1
        names.foldl
          (fun cd2 nm =>
            { cd2 with fields := cd2.fields ++
                [{ name := String.mk nm.2.1, type := parseType type_str }] })
          cd)
    class_decl

/-- `SimpleCppParser::parseMethods`: iterate `method_pattern` over the
section and append one `Function` per match. -/
def parseMethodsIn (sec : String) (class_decl : ClassDecl) : ClassDecl :=
  (allMatches methodPattern sec.data).1.foldl
    (fun cd m =>
      let caps := m.2.2
      let g3 := capStr caps 3
      let is_ctor := g3 = "" || g3 = cd.name
      let method : Function := {
        name := capStr caps 4
        is_virtual := capMatched caps 1
        is_static := capMatched caps 2
        is_pure_virtual := capMatched caps 7
        is_constructor := is_ctor
        return_type := if is_ctor then none else parseType g3
        parameters :=
          if capStr caps 5 = "" then [] else parseParameters (capStr caps 5)
        is_const := capMatched caps 6
        body := capStr caps 8 }
      { cd with methods := cd.methods ++ [method] })
    class_decl

/-- `SimpleCppParser::parseSection`: fields, then methods. -/
def parseSection (sec : String) (class_decl : ClassDecl) : ClassDecl :=
  parseMethodsIn sec (parseFieldsIn sec class_decl)

/-- `SimpleCppParser::parseClassBody`: split the body at
`access_pattern` matches into sections (each labelled with the access level
in force *before* the matched label, starting from `private`), append the
trailing text if non-empty, fall back to the whole body as one `private`
section when no label occurred, and run `parseSection` on every section.
(The access labels themselves are computed but never stored in the IR:
`parseFields`/`parseMethods` ignore their `access` argument.) -/
def parseClassBody (body : String) (class_decl : ClassDecl) : ClassDecl :=
  let (ms, trailing) := allMatches accessPattern body.data
  let step := ms.foldl
    (fun (acc : List String × String) m =>
      let pre := String.mk m.1
      let sections := if pre = "" then acc.1 else acc.1 ++ [pre]
      (sections, capStr m.2.2 1))
    ([], "private")
  let sections1 :=
    if trailing.isEmpty then step.1 else step.1 ++ [String.mk trailing]
  let sections2 := if sections1.isEmpty then [body] else sections1
  sections2.foldl (fun cd sec => parseSection sec cd) class_decl

/-- The per-match body of `SimpleCppParser::parseClasses`: build one
`ClassDecl` (`is_struct` is always set to `false`), parse its optional
base-class clause and its body, and append it to the IR. -/
def classStep (acc : IR) (m : List Char × List Char × Caps) : IR :=
  let caps := m.2.2
  let cd0 : ClassDecl := { name := capStr caps 1, is_struct := false }
  let cd1 :=
    if capMatched caps 2 then
      { cd0 with base_classes := parseBaseClasses (capStr caps 2) }
    else cd0
  let cd2 := parseClassBody (capStr caps 3) cd1
  { acc with classes := acc.classes ++ [cd2] }

/-- `SimpleCppParser::parseClasses`: strip comments, then iterate
`class_pattern` over the cleaned text. -/
def parseClasses (source_ : String) (ir : IR) : IR :=
  let cleaned := removeComments source_
  (allMatches classPattern cleaned.data).1.foldl classStep ir

/-- `SimpleCppParser::parseString`: fresh IR, then `parseClasses`. -/
def parseString (source : String) : IR :=
  parseClasses source {}

/-- `SimpleCppParser::parseFile` over an explicit file-system map: throwing
`std::runtime_error("Cannot open file: " + filename)` when the path cannot
be opened is modelled with `Except`. -/
def FileSystem : Type := String → Option String

def parseFile (fs : FileSystem) (filename : String) : Except String IR :=
  match fs filename with
  | none => .error ("Cannot open file: " ++ filename)
  | some content => .ok (parseString content)

/-! ## `TemplateAnalyzer` (src/parser/template_analyzer.cpp) -/

/-- First index of `c` in `l` (`std::string::find(char)`). -/
def firstIdxOf (c : Char) (l : List Char) : Option Nat :=
  l.findIdx? (fun x => x = c)

/-- Last index of `c` in `l` (`std::string::rfind(char)`). -/
def lastIdxOf (c : Char) : List Char → Option Nat
  | [] => none
  | x :: t =>
    match lastIdxOf c t with
    | some i => some (i + 1)
    | none => if x = c then some 0 else none

/-- The text after the last occurrence of the substring `needle`
(`substr(rfind(needle) + needle.size())`); `none` when `needle` does not
occur. -/
def afterLastSub (needle : List Char) : List Char → Option (List Char)
  | [] => none
  | c :: t =>
    match afterLastSub needle t with
    | some r => some r
    | none =>
      if beginsWith needle (c :: t) then some ((c :: t).drop needle.length)
      else none

/-- `TemplateAnalyzer::splitTemplateParams`: split on commas outside
`<...>`; a comma-split segment is pushed even when empty, but the final
segment only when non-empty. -/
def splitTParamsGo (depth : Int) (cur : List Char) : List Char → List String
  | [] => if cur.isEmpty then [] else [String.mk cur.reverse]
  | c :: t =>
    if c = '<' then splitTParamsGo (depth + 1) (c :: cur) t
    else if c = '>' then splitTParamsGo (depth - 1) (c :: cur) t
    else if c = ',' then
      if depth = 0 then String.mk cur.reverse :: splitTParamsGo depth [] t
      else splitTParamsGo depth (c :: cur) t
    else splitTParamsGo depth (c :: cur) t

/-- `TemplateAnalyzer::splitTemplateParams`. -/
def splitTemplateParams (params : String) : List String :=
  splitTParamsGo 0 [] params.data

/-- The `for` loop joining all tokens but the last with single spaces
(`if (i > 0) type_str += " "; type_str += tokens[i]`). -/
def joinWithSpace : List String → String
  | [] => ""
  | [x] => x
  | x :: y :: t => x ++ " " ++ joinWithSpace (y :: t)

/-- The constraint-joining loop of `toGoTypeParameters`
(`if (i > 0) ss << " | "; ss << constraints[i]`). -/
def joinBar : List String → String
  | [] => ""
  | [x] => x
  | x :: y :: t => x ++ " | " ++ joinBar (y :: t)

/-- `TemplateAnalyzer::parseTemplateParameter`: classify one
comma-separated token group.  `typename`/`class` prefix → `TypeParam`
(name and optional `=`-default taken from the text after the first space);
`template` prefix → `TemplateParam` (name after the last `class`);
otherwise `NonType`, where the **last** space-separated token carries the
name (an `=` *inside that token* splits name and default) and the earlier
tokens joined with spaces become the declared type's name (a `Type` of
`Integer` kind — "Simplified" per the code comment). -/
def parseTemplateParameter (param_str : String) : TemplateParameter :=
  let trimmed := trimAz param_str
  if strStarts trimmed "typename" || strStarts trimmed "class" then
    match firstIdxOf ' ' trimmed.data with
    | some name_start =>
      let rest := trimmed.data.drop (name_start + 1)
      match firstIdxOf '=' rest with
      | some eq_pos =>
        { kind := .TypeParam
          name := trimAz (String.mk (rest.take eq_pos))
          default_value := trimAz (String.mk (rest.drop (eq_pos + 1))) }
      | none =>
        { kind := .TypeParam, name := trimAz (String.mk rest) }
    | none => { kind := .TypeParam, name := "" }
  else if strStarts trimmed "template" then
    match afterLastSub "class".data trimmed.data with
    | some r => { kind := .TemplateParam, name := trimAz (String.mk r) }
    | none => { kind := .TemplateParam, name := "" }
  else
    match splitCpp ' ' trimmed with
    | [] => { kind := .NonType, name := "" }
    | tok :: toks =>
      let tokens := tok :: toks
      let last_token := tokens.getLast (by simp)
      let type_str := joinWithSpace (tokens.dropLast)
      let param_type : Option Ty := some (.mk .Integer type_str false none)
      match firstIdxOf '=' last_token.data with
      | some eq_pos =>
        { kind := .NonType
          name := trimAz (String.mk (last_token.data.take eq_pos))
          default_value := trimAz (String.mk (last_token.data.drop (eq_pos + 1)))
          param_type := param_type }
      | none =>
        { kind := .NonType, name := last_token, param_type := param_type }

/-- `TemplateAnalyzer::parseTemplateParameters`: the content between the
first `<` and the last `>` is split and classified; when either bracket is
missing the list stays empty.  When the last `>` precedes the first `<`,
the `size_t` count `end - start - 1` wraps around and `substr` yields the
whole remainder after `<`. -/
def parseTemplateParameters (decl : String) : List TemplateParameter :=
  match firstIdxOf '<' decl.data, lastIdxOf '>' decl.data with
  | some start, some stop =>
    let param_list :=
      if start + 1 ≤ stop then
        String.mk ((decl.data.drop (start + 1)).take (stop - start - 1))
      else
        String.mk (decl.data.drop (start + 1))
    (splitTemplateParams param_list).map parseTemplateParameter
  | _, _ => []

/-- The loop body of `toGoTypeParameters`: `if (!first) ss << ", "`, then
the parameter's contribution (`TypeParam`s render their name plus
`" | "`-joined constraints or `" any"`; other kinds append nothing
further). -/
def goStep (acc : String × Bool) (param : TemplateParameter) :
    String × Bool :=
  let s := if acc.2 then acc.1 else acc.1 ++ ", "
  let s :=
    if param.kind = .TypeParam then
      if param.constraints.isEmpty then s ++ param.name ++ " any"
      else s ++ param.name ++ " " ++ joinBar param.constraints
    else s
  (s, false)

/-- `TemplateConversionStrategy::toGoTypeParameters`: for every parameter
after the first, `", "` is appended *before* the parameter's kind is
examined. -/
def toGoTypeParameters (params : List TemplateParameter) : String :=
  if params.isEmpty then ""
  else (params.foldl goStep ("[", true)).1 ++ "]"

/-- `TemplatePatternDetector::hasSFINAEPattern`'s parameter loop:
`param.type->name.find("enable_if")`, dereferencing each parameter type in
order and returning at the first hit. -/
def sfinaeParams : List Parameter → Option Bool
  | [] => some false
  | p :: ps =>
    match p.type with
    | none => none
    | some t =>
      if strContains t.name "enable_if" then some true else sfinaeParams ps

/-- `TemplatePatternDetector::hasSFINAEPattern`: checks
`func.return_type->name` and then each `param.type->name` for
`"enable_if"`.  The `nullptr` dereference of an absent `return_type` (a
constructor) or an absent parameter type is modelled as `none`. -/
def hasSFINAEPattern (func : Function) : Option Bool :=
  match func.return_type with
  | none => none
  | some rt =>
    if strContains rt.name "enable_if" then some true
    else sfinaeParams func.parameters

/-! ## `AsyncAnalyzer` (src/parser/async_analyzer.cpp) -/

/-- One keyword pass of `AsyncAnalyzer::detectCoroutineKeywords`: every
match appends an `AsyncOperation` with the trimmed group-1 expression. -/
def coroPass (pat : RE) (op : AsyncOpType) (body : String)
    (ops : List AsyncOperation) : List AsyncOperation :=
  ops ++ (allMatches pat body.data).1.map
    (fun m => { op_type := op, expression := trimAz (capStr m.2.2 1) })

/-- `AsyncAnalyzer::detectCoroutineKeywords`. -/
def detectCoroutineKeywords (func : Function) : Function :=
  let body := func.body
  let awaits := (allMatches awaitPattern body.data).1
  let rets := (allMatches coReturnPattern body.data).1
  let yields := (allMatches yieldPattern body.data).1
  let ci0 := func.coroutine_info
  let ci1 := { ci0 with
    async_operations := ci0.async_operations ++
      awaits.map (fun m =>
        { op_type := .CoAwait, expression := trimAz (capStr m.2.2 1) }) ++
      rets.map (fun m =>
        { op_type := .CoReturn, expression := trimAz (capStr m.2.2 1) }) ++
      yields.map (fun m =>
        { op_type := .CoYield, expression := trimAz (capStr m.2.2 1) })
    uses_co_await := ci0.uses_co_await || !awaits.isEmpty
    uses_co_return := ci0.uses_co_return || !rets.isEmpty
    uses_co_yield := ci0.uses_co_yield || !yields.isEmpty
    is_generator := ci0.is_generator || !yields.isEmpty }
  let ci2 :=
    if ci1.uses_co_await || ci1.uses_co_return || ci1.uses_co_yield then
      { ci1 with is_coroutine := true }
    else ci1
  { func with coroutine_info := ci2 }

/-- The promise-association loop of `AsyncAnalyzer::detectFuturePromise`:
the first future without an associated promise receives the promise
variable's name. -/
def assignFirstEmptyPromise : List FutureInfo → String → List FutureInfo
  | [], _ => []
  | f :: fs, v =>
    if f.promise_var_name = "" then { f with promise_var_name := v } :: fs
    else f :: assignFirstEmptyPromise fs v

/-- `AsyncAnalyzer::detectFuturePromise`. -/
def detectFuturePromise (func : Function) : Function :=
  let body := func.body
  let futures1 := func.futures ++ (allMatches futurePattern body.data).1.map
    (fun m =>
      { future_var_name := capStr m.2.2 2
        value_type := some (.mk .Void (capStr m.2.2 1) false none) })
  let futures2 := (allMatches promisePattern body.data).1.foldl
    (fun fs m => assignFirstEmptyPromise fs (capStr m.2.2 2)) futures1
  { func with futures := futures2 }

/-- `AsyncAnalyzer::parseArguments`: split on commas at zero
bracket/paren/brace and angle depth, trimming each argument; the depth
updates happen before the comma test (a comma changes no depth). -/
def parseArgsGo (pd ad : Int) (cur : List Char) : List Char → List String
  | [] => if cur.isEmpty then [] else [trimAz (String.mk cur.reverse)]
  | c :: t =>
    let pd' :=
      if c = '(' || c = '[' || c = '\x7b' then pd + 1
      else if c = ')' || c = ']' || c = '\x7d' then pd - 1
      else pd
    let ad' := if c = '<' then ad + 1 else if c = '>' then ad - 1 else ad
    if c = ',' then
      if pd' = 0 then
        if ad' = 0 then trimAz (String.mk cur.reverse) :: parseArgsGo pd' ad' [] t
        else parseArgsGo pd' ad' (c :: cur) t
      else parseArgsGo pd' ad' (c :: cur) t
    else parseArgsGo pd' ad' (c :: cur) t

/-- `AsyncAnalyzer::parseArguments`. -/
def parseArgumentsCpp (args_str : String) : List String :=
  parseArgsGo 0 0 [] args_str.data

/-- `AsyncAnalyzer::detectAsyncCalls`. -/
def detectAsyncCalls (func : Function) : Function :=
  let body := func.body
  let tasks1 := func.async_tasks ++ (allMatches asyncPattern1 body.data).1.map
    (fun m =>
      { task_var_name := capStr m.2.2 1
        async_function_name := trimAz (capStr m.2.2 2)
        arguments :=
          if capMatched m.2.2 3 then parseArgumentsCpp (capStr m.2.2 3) else []
        detached := false })
  let tasks2 := tasks1 ++ (allMatches asyncPattern2 body.data).1.map
    (fun m =>
      { task_var_name := ""
        async_function_name := trimAz (capStr m.2.2 1)
        arguments :=
          if capMatched m.2.2 2 then parseArgumentsCpp (capStr m.2.2 2) else []
        detached := true })
  { func with async_tasks := tasks2 }

/-- `AsyncAnalyzer::analyzeFunction`: the three detection passes, then the
derived flag `is_async = is_coroutine || futures non-empty || async_tasks
non-empty`, computed from the fields those passes produced. -/
def analyzeFunction (func : Function) : Function :=
  let f1 := detectCoroutineKeywords func
  let f2 := detectFuturePromise f1
  let f3 := detectAsyncCalls f2
  { f3 with is_async :=
      f3.coroutine_info.is_coroutine ||
      !f3.futures.isEmpty || !f3.async_tasks.isEmpty }

/-! ## Pipeline orchestrator (src/transpiler.cpp) and code generators

The code-generator *implementations* are not among the sources: only the
`CodeGenerator` interface and its per-instance members (`output_`,
`indent_level_`) are declared in `include/codegen.h`.  Their behaviour
below is modelled from the spec (§4.4). -/

/-- `TargetLanguage` (declared in the absent `transpiler.h`; the two values
used by `transpiler.cpp` are `Rust` and `Go`). -/
inductive TargetLanguage where
  | Rust | Go
  deriving DecidableEq, Repr

/-- `TranspilerOptions` (declared in the absent `transpiler.h`): target
selector and output path, as read by `transpiler.cpp`. -/
structure TranspilerOptions where
  target : TargetLanguage
  output_path : String

/-- The per-instance state of a `CodeGenerator` (`include/codegen.h`):
the output buffer and the indentation level. -/
structure CodeGeneratorState where
  output_ : String := ""
  indent_level_ : Int := 0

/-- Modelled from the spec: the profile-specific rendering performed by the
absent `RustCodeGenerator::generate` / `GoCodeGenerator::generate`
implementations.  Per §4.4 each generator consumes the finished IR and
emits a complete translation unit; classes lower to structs with one
trait (Target-Alpha) or structural interface (Target-Beta) per base
class.  The text is a function of the profile and the IR alone. -/
def renderIR (target : TargetLanguage) (ir : IR) : String :=
  match target with
  | .Rust =>
    ir.classes.foldl
      (fun s c =>
        s ++ "struct " ++ c.name ++ ";\n" ++
        c.base_classes.foldl
          (fun s2 b => s2 ++ "impl " ++ b ++ " for " ++ c.name ++ " \x7b\x7d\n")
          "")
      ""
  | .Go =>
    ir.classes.foldl
      (fun s c =>
        s ++ "type " ++ c.name ++ " struct \x7b\x7d\n" ++
        c.base_classes.foldl
          (fun s2 b => s2 ++ "// " ++ c.name ++ " satisfies " ++ b ++ "\n")
          "")
      ""

/-- Modelled from the spec: `CodeGenerator::generate` (implementation
absent; only the interface is in `include/codegen.h`).  Per §4.4 the call
is "pure with respect to the input IR (no shared state across invocations;
each call produces output independent of prior calls)" and "Indentation/
output buffering is local, per-call state; never shared or persisted
between calls": the member buffers are re-initialized by each call and the
result depends only on the profile and the IR. -/
def generateCpp (target : TargetLanguage) (st : CodeGeneratorState)
    (ir : IR) : String × CodeGeneratorState :=
  let text := renderIR target ir
  (text, { output_ := text, indent_level_ := 0 })

/-- The `Transpiler` object state (`transpiler.cpp`): options, owned IR,
selected generator, last error message. -/
structure TranspilerState where
  options : TranspilerOptions
  ir : IR := {}
  codegen : Option TargetLanguage := none
  codegen_state : CodeGeneratorState := {}
  last_error : String := ""

/-- `Transpiler::Transpiler`: selects the generator from the target
option. -/
def mkTranspiler (options : TranspilerOptions) : TranspilerState :=
  { options := options, codegen := some options.target }

/-- `Transpiler::parseSourceFile`: `Parser::parseFile` with the caught
exception stored as `"Failed to parse input file: " + e.what()`. -/
def parseSourceFile (fs : FileSystem) (t : TranspilerState)
    (input_path : String) : Bool × TranspilerState :=
  match parseFile fs input_path with
  | .ok ir => (true, { t with ir := ir })
  | .error e =>
    (false, { t with last_error := "Failed to parse input file: " ++ e })

/-- `Transpiler::generateCode`: fails when no generator was constructed,
otherwise generates from the IR and writes the output file (the
`std::ofstream` open is modelled as always succeeding). -/
def generateCode (fs : FileSystem) (t : TranspilerState)
    (output_path : String) : Bool × TranspilerState × FileSystem :=
  match t.codegen with
  | none =>
    (false, { t with last_error := "Code generator not initialized" }, fs)
  | some target =>
    let r := generateCpp target t.codegen_state t.ir
    (true, { t with codegen_state := r.2 },
      fun p => if p = output_path then some r.1 else fs p)

/-- `Transpiler::transpile`: parse, then generate; on a parse failure the
method returns `false` before `generateCode` runs, leaving the file system
untouched. -/
def transpile (fs : FileSystem) (t : TranspilerState)
    (input_path : String) : Bool × TranspilerState × FileSystem :=
  let r := parseSourceFile fs t input_path
  if r.1 then generateCode fs r.2 r.2.options.output_path
  else (false, r.2, fs)

/-! ## Specification-side definitions used by the theorems

These do not embed source code; they state properties the theorems compare
the embedded code against. -/

/-- A `//` occurs (so a line comment would still start there). -/
def hasDoubleSlash (l : List Char) : Bool := containsSub ['/', '/'] l

/-- Scanning forward, a `*/` occurs before any line terminator (the
closing condition of a single-line block comment; mirrors the ECMAScript
lazy `.*?\*/` with `.` excluding line terminators, LF and CR). -/
def closesBeforeTerm : List Char → Bool
  | [] => false
  | [_] => false
  | a :: b :: rest =>
    (a = '*' && b = '/') || (!isLineTerm a && closesBeforeTerm (b :: rest))

/-- A complete line-terminator-free block comment `/* … */` occurs
somewhere in the text — i.e. the block-comment regex would still find a
match. -/
def hasLiveBlockOpen : List Char → Bool
  | [] => false
  | [_] => false
  | c :: d :: rest =>
    if c = '/' ∧ d = '*' then closesBeforeTerm rest || hasLiveBlockOpen rest
    else hasLiveBlockOpen (d :: rest)

/-- Per-parameter slot text of the Target-Beta rendering, per the amended
reading of the spec: a `TypeParam` renders as its name followed by its
`" | "`-joined constraints (or `any`); every other kind renders as an empty
slot. -/
def goParamTextSpec (p : TemplateParameter) : String :=
  if p.kind = .TypeParam then
    if p.constraints.isEmpty then p.name ++ " any"
    else p.name ++ " " ++ joinBar p.constraints
  else ""

/-- The `", "`-separated tail of a comma join. -/
def commaJoinTail : List String → String
  | [] => ""
  | x :: t => ", " ++ x ++ commaJoinTail t

/-- Comma-separated join of the slot texts. -/
def commaJoin : List String → String
  | [] => ""
  | x :: t => x ++ commaJoinTail t

/-- The amended specification of the Target-Beta rendering: a bracketed,
comma-separated list with one slot per template parameter (non-type
parameters contribute an empty slot but still a separator). -/
def toGoTypeParametersSpec (params : List TemplateParameter) : String :=
  if params.isEmpty then ""
  else "[" ++ commaJoin (params.map goParamTextSpec) ++ "]"

/-- The claim C2 input text `class Foo { public: int x; void bar(){} };`. -/
def c2src : String :=
  "class Foo \x7b public: int x; void bar()\x7b\x7d \x7d;"

/-- A `struct`-keyword declaration, for claim C10. -/
def structSrc : String := "struct Foo \x7b public: int x; \x7d;"

/-- A block comment spanning two lines, for claim C6. -/
def mlCommentSrc : String := "/*\na*/"

/-! # Helper lemmas -/
theorem beginsWith_single (a : Char) (l : List Char) :
    beginsWith [a] l = decide (l.head? = some a) := by
  cases l with
  | nil => simp [beginsWith]
  | cons x t => simp [beginsWith, eq_comm]

theorem containsSub_cons (n : List Char) (c : Char) (t : List Char) :
    containsSub n (c :: t) = (beginsWith n (c :: t) || containsSub n t) := rfl

theorem containsSub_nil_two (a b : Char) : containsSub [a, b] [] = false := rfl

theorem containsSub_single_two (a b x : Char) : containsSub [a, b] [x] = false := by
  simp [containsSub, beginsWith]

theorem containsSub_append_two (a b : Char) (A B : List Char) :
    containsSub [a, b] (A ++ B) =
      (containsSub [a, b] A ||
       (decide (A.getLast? = some a) && decide (B.head? = some b)) ||
       containsSub [a, b] B) := by
  induction A with
  | nil => simp [containsSub]
  | cons x A' ih =>
    cases A' with
    | nil =>
      cases B with
      | nil => simp [containsSub, beginsWith]
      | cons y B' =>
        simp [containsSub, beginsWith, Bool.or_assoc, Bool.and_assoc, eq_comm]
    | cons y A'' =>
      rw [List.cons_append, containsSub_cons, ih]
      rw [containsSub_cons (t := y :: A'')]
      have hgl : (x :: y :: A'').getLast? = (y :: A'').getLast? := by
        simp [List.getLast?_cons_cons]
      rw [hgl]
      have hbw : beginsWith [a, b] (x :: (y :: A'' ++ B)) =
          beginsWith [a, b] (x :: y :: A'') := by
        simp [beginsWith]
      rw [List.cons_append] at hbw ⊢
      rw [hbw]
      simp [Bool.or_assoc]

theorem containsSub_tail (n : List Char) (c : Char) (t : List Char)
    (h : containsSub n (c :: t) = false) : containsSub n t = false := by
  rw [containsSub_cons] at h
  exact (Bool.or_eq_false_iff.mp h).2

theorem containsSub_append_right (n A B : List Char)
    (h : containsSub n (A ++ B) = false) : containsSub n B = false := by
  induction A with
  | nil => exact h
  | cons x A' ih => exact ih (containsSub_tail n x (A' ++ B) h)

theorem stripLineGo_true_head (l : List Char) :
    (stripLineGo true l).head? = none ∨ (stripLineGo true l).head? = some '\n' := by
  induction l with
  | nil => left; rfl
  | cons c t ih =>
    by_cases h : c = '\n'
    · right; simp [stripLineGo, h]
    · simpa [stripLineGo, h] using ih

theorem stripLineGo_noDS (b : Bool) (l : List Char) :
    containsSub ['/', '/'] (stripLineGo b l) = false := by
  induction b, l using stripLineGo.induct with
  | case1 => rfl
  | case2 c => exact containsSub_single_two '/' '/' c
  | case3 c d rest h ih => simpa [stripLineGo, h] using ih
  | case4 c d rest h ih =>
    rw [show stripLineGo false (c :: d :: rest) =
        c :: stripLineGo false (d :: rest) by simp [stripLineGo, h]]
    rw [containsSub_cons]
    simp only [Bool.or_eq_false_iff]
    refine ⟨?_, ih⟩
    by_cases hc : c = '/'
    · subst hc
      have hd : ¬d = '/' := fun hd => h ⟨rfl, hd⟩
      have hd' : ¬ ('/' = d) := fun hh => hd hh.symm
      -- head of the recursive output is '\n' or d or none; none of these is '/'
      have hh : beginsWith ['/'] (stripLineGo false (d :: rest)) = false := by
        cases rest with
        | nil =>
          simp [stripLineGo, beginsWith, hd']
        | cons e t2 =>
          have hde : ¬(d = '/' ∧ e = '/') := fun ⟨h1, _⟩ => hd h1
          simp [stripLineGo, hde, beginsWith, hd']
      simp [beginsWith, hh]
    · have hc' : ¬ ('/' = c) := fun hh => hc hh.symm
      simp [beginsWith, hc']
  | case5 => rfl
  | case6 rest ih =>
    rw [show stripLineGo true ('\n' :: rest) = '\n' :: stripLineGo false rest by
      simp [stripLineGo]]
    rw [containsSub_cons]
    simp only [Bool.or_eq_false_iff]
    refine ⟨?_, ih⟩
    simp [beginsWith]
  | case7 c rest h ih => simpa [stripLineGo, h] using ih

theorem stripBlockGo_none_head (d : Char) (t : List Char) (hd : ¬d = '/') :
    (stripBlockGo none (d :: t)).head? = some d := by
  cases t with
  | nil => rfl
  | cons e t2 =>
    have h : ¬(d = '/' ∧ e = '*') := fun ⟨h1, _⟩ => hd h1
    simp [stripBlockGo, h]

theorem lineTerm_facts (t : Char) (ht : isLineTerm t = true) :
    ¬t = '*' ∧ ¬t = '/' := by
  have : t = '\n' ∨ t = '\r' := by simpa [isLineTerm] using ht
  rcases this with rfl | rfl <;> exact ⟨by decide, by decide⟩

theorem stripBlockGo_noDS (st : Option (List Char)) (l : List Char)
    (h : containsSub ['/', '/'] ((st.getD []).reverse ++ l) = false) :
    containsSub ['/', '/'] (stripBlockGo st l) = false := by
  induction st, l using stripBlockGo.induct with
  | case1 => rfl
  | case2 c => exact containsSub_single_two '/' '/' c
  | case3 c d rest hcd ih =>
    rw [show stripBlockGo none (c :: d :: rest) =
        stripBlockGo (some ['*', '/']) rest by simp [stripBlockGo, hcd]]
    apply ih
    obtain ⟨h1, h2⟩ := hcd
    subst h1; subst h2
    simpa using h
  | case4 c d rest hcd ih =>
    rw [show stripBlockGo none (c :: d :: rest) =
        c :: stripBlockGo none (d :: rest) by simp [stripBlockGo, hcd]]
    simp only [Option.getD_none, List.reverse_nil, List.nil_append] at h ih
    rw [containsSub_cons]
    simp only [Bool.or_eq_false_iff]
    refine ⟨?_, ih (containsSub_tail _ _ _ h)⟩
    by_cases hc : c = '/'
    · subst hc
      have hd : ¬d = '/' := by
        intro hd
        rw [containsSub_cons] at h
        simp [beginsWith, hd] at h
      have hh := stripBlockGo_none_head d rest hd
      cases hout : stripBlockGo none (d :: rest) with
      | nil => simp [beginsWith]
      | cons x xs =>
        rw [hout] at hh
        have hx : x = d := by simpa using hh
        have hd2 : ¬ ('/' = x) := fun hh2 => hd (hx ▸ hh2.symm)
        simp [beginsWith, hd2]
    · have hc2 : ¬ ('/' = c) := fun hh2 => hc hh2.symm
      simp [beginsWith, hc2]
  | case5 buf =>
    rw [show stripBlockGo (some buf) [] = buf.reverse from rfl]
    simp only [Option.getD_some, List.append_nil] at h
    exact h
  | case6 buf c hterm ih =>
    rw [show stripBlockGo (some buf) [c] =
        buf.reverse ++ c :: stripBlockGo none [] by simp [stripBlockGo, hterm]]
    rw [show stripBlockGo none [] = ([] : List Char) from rfl]
    simp only [Option.getD_some] at h
    rw [containsSub_append_two] at h ⊢
    simp only [Bool.or_eq_false_iff] at h ⊢
    obtain ⟨-, hcslash⟩ := lineTerm_facts c hterm
    refine ⟨⟨h.1.1, ?_⟩, ?_⟩
    · simp [hcslash]
    · exact containsSub_single_two '/' '/' c
  | case7 buf c hterm ih =>
    rw [show stripBlockGo (some buf) [c] =
        stripBlockGo (some (c :: buf)) [] by simp [stripBlockGo, hterm]]
    apply ih
    simp only [Option.getD_some, List.reverse_cons, List.append_nil]
    simpa using h
  | case8 buf c d rest hcd ih =>
    rw [show stripBlockGo (some buf) (c :: d :: rest) =
        stripBlockGo none rest by simp [stripBlockGo, hcd]]
    apply ih
    simp only [Option.getD_none, List.reverse_nil, List.nil_append]
    simp only [Option.getD_some] at h
    have h2 := containsSub_append_right _ _ _ h
    exact containsSub_tail _ _ _ (containsSub_tail _ _ _ h2)
  | case9 buf c d rest hcd hterm ih =>
    rw [show stripBlockGo (some buf) (c :: d :: rest) =
        buf.reverse ++ c :: stripBlockGo none (d :: rest) by
      simp [stripBlockGo, hcd, hterm]]
    simp only [Option.getD_some] at h
    simp only [Option.getD_none, List.reverse_nil, List.nil_append] at ih
    have hrest : containsSub ['/', '/'] (d :: rest) = false :=
      containsSub_tail _ _ _ (containsSub_append_right _ _ _ h)
    rw [containsSub_append_two]
    simp only [Bool.or_eq_false_iff]
    have hbuf : containsSub ['/', '/'] buf.reverse = false := by
      rw [containsSub_append_two] at h
      simp only [Bool.or_eq_false_iff] at h
      exact h.1.1
    obtain ⟨-, hcslash⟩ := lineTerm_facts c hterm
    refine ⟨⟨hbuf, by simp [hcslash]⟩, ?_⟩
    rw [containsSub_cons]
    simp only [Bool.or_eq_false_iff]
    constructor
    · have hcslash2 : ¬ ('/' = c) := fun hh => hcslash hh.symm
      simp [beginsWith, hcslash2]
    · exact ih hrest
  | case10 buf c d rest hcd hterm ih =>
    rw [show stripBlockGo (some buf) (c :: d :: rest) =
        stripBlockGo (some (c :: buf)) (d :: rest) by
      simp [stripBlockGo, hcd, hterm]]
    apply ih
    simp only [Option.getD_some, List.reverse_cons] at h ⊢
    rw [List.append_assoc]
    simpa using h
theorem closesBeforeTerm_of_pair_free (l : List Char)
    (h : containsSub ['*', '/'] l = false) : closesBeforeTerm l = false := by
  induction l with
  | nil => rfl
  | cons a t ih =>
    cases t with
    | nil => rfl
    | cons b rest =>
      have hpair : ¬(a = '*' ∧ b = '/') := by
        intro ⟨h1, h2⟩
        rw [containsSub_cons] at h
        simp [beginsWith, h1, h2] at h
      rw [show closesBeforeTerm (a :: b :: rest) =
          ((a = '*' && b = '/') || (!isLineTerm a && closesBeforeTerm (b :: rest)))
          from rfl]
      have := ih (containsSub_tail _ _ _ h)
      rcases Decidable.em (a = '*') with h1 | h1
      · rcases Decidable.em (b = '/') with h2 | h2
        · exact absurd ⟨h1, h2⟩ hpair
        · simp [h1, h2, this]
      · simp [h1, this]

theorem hasLive_of_pair_free (l : List Char)
    (h : containsSub ['*', '/'] l = false) : hasLiveBlockOpen l = false := by
  induction l using hasLiveBlockOpen.induct with
  | case1 => rfl
  | case2 => rfl
  | case3 c d rest hcd ih =>
    rw [show hasLiveBlockOpen (c :: d :: rest) =
        (closesBeforeTerm rest || hasLiveBlockOpen rest) by
      simp [hasLiveBlockOpen, hcd]]
    have hr : containsSub ['*', '/'] rest = false :=
      containsSub_tail _ _ _ (containsSub_tail _ _ _ h)
    simp [closesBeforeTerm_of_pair_free rest hr, ih hr]
  | case4 c d rest hcd ih =>
    rw [show hasLiveBlockOpen (c :: d :: rest) =
        hasLiveBlockOpen (d :: rest) by simp [hasLiveBlockOpen, hcd]]
    exact ih (containsSub_tail _ _ _ h)

theorem closesBeforeTerm_head_term (t : Char) (ht : isLineTerm t = true)
    (zs : List Char) : closesBeforeTerm (t :: zs) = false := by
  obtain ⟨hstar, -⟩ := lineTerm_facts t ht
  cases zs with
  | nil => rfl
  | cons z zs' =>
    rw [show closesBeforeTerm (t :: z :: zs') =
        ((t = '*' && z = '/') || (!isLineTerm t && closesBeforeTerm (z :: zs')))
        from rfl]
    simp [hstar, ht]

theorem closesBeforeTerm_buf (t : Char) (ht : isLineTerm t = true)
    (xs zs : List Char)
    (hnl : xs.all (fun c => !isLineTerm c) = true)
    (hpf : containsSub ['*', '/'] xs = false) :
    closesBeforeTerm (xs ++ t :: zs) = false := by
  induction xs with
  | nil => exact closesBeforeTerm_head_term t ht zs
  | cons x xs' ih =>
    have hx : isLineTerm x = false := by
      simp [List.all_cons] at hnl
      simpa using hnl.1
    have hnl' : xs'.all (fun c => !isLineTerm c) = true := by
      simp [List.all_cons] at hnl
      simpa using hnl.2
    have hpf' : containsSub ['*', '/'] xs' = false := containsSub_tail _ _ _ hpf
    cases xs' with
    | nil =>
      rw [show (([x] : List Char) ++ t :: zs) = x :: t :: zs from rfl]
      rw [show closesBeforeTerm (x :: t :: zs) =
          ((x = '*' && t = '/') || (!isLineTerm x && closesBeforeTerm (t :: zs)))
          from rfl]
      obtain ⟨-, hslash⟩ := lineTerm_facts t ht
      simp [hslash, closesBeforeTerm_head_term t ht zs]
    | cons y xs'' =>
      have hpair : ¬(x = '*' ∧ y = '/') := by
        intro ⟨h1, h2⟩
        rw [containsSub_cons] at hpf
        simp [beginsWith, h1, h2] at hpf
      rw [show ((x :: y :: xs'') ++ t :: zs) =
          x :: ((y :: xs'') ++ t :: zs) from rfl]
      rw [show closesBeforeTerm (x :: ((y :: xs'') ++ t :: zs)) =
          ((x = '*' && ((y :: xs'') ++ t :: zs).head?.getD ' ' = '/') ||
           (!isLineTerm x && closesBeforeTerm ((y :: xs'') ++ t :: zs)))
          from ?_ ]
      · have hihx : closesBeforeTerm (y :: (xs'' ++ t :: zs)) = false := by
          have := ih hnl' hpf'
          simpa [List.cons_append] using this
        rcases Decidable.em (x = '*') with h1 | h1
        · have hy : ¬y = '/' := fun h2 => hpair ⟨h1, h2⟩
          simp [h1, hy, hihx]
        · simp [h1, hihx]
      · rfl

theorem hasLive_buf (t : Char) (ht : isLineTerm t = true) (xs zs : List Char)
    (hnl : xs.all (fun c => !isLineTerm c) = true)
    (hpf : containsSub ['*', '/'] xs = false) :
    hasLiveBlockOpen (xs ++ t :: zs) = hasLiveBlockOpen zs := by
  obtain ⟨-, htslash⟩ := lineTerm_facts t ht
  have htcons : ∀ zs' : List Char,
      hasLiveBlockOpen (t :: zs') = hasLiveBlockOpen zs' := by
    intro zs'
    cases zs' with
    | nil => rfl
    | cons z zs'' =>
      have hto : ¬(t = '/' ∧ z = '*') := fun ⟨h1, _⟩ => htslash h1
      simp [hasLiveBlockOpen, hto]
  induction xs using hasLiveBlockOpen.induct with
  | case1 => exact htcons zs
  | case2 x =>
    rw [show (([x] : List Char) ++ t :: zs) = x :: t :: zs from rfl]
    have hxo : ¬(x = '/' ∧ t = '*') := fun hp => (lineTerm_facts t ht).1 hp.2
    rw [show hasLiveBlockOpen (x :: t :: zs) =
        hasLiveBlockOpen (t :: zs) by
      simp [hasLiveBlockOpen, hxo]]
    exact htcons zs
  | case3 c d rest hcd ih =>
    have hnl' : rest.all (fun c => !isLineTerm c) = true := by
      simp [List.all_cons] at hnl
      simpa using hnl.2.2
    have hpf' : containsSub ['*', '/'] rest = false :=
      containsSub_tail _ _ _ (containsSub_tail _ _ _ hpf)
    obtain ⟨h1, h2⟩ := hcd
    subst h1; subst h2
    rw [show ((('/' : Char) :: '*' :: rest) ++ t :: zs) =
        '/' :: '*' :: (rest ++ t :: zs) from rfl]
    rw [show hasLiveBlockOpen ('/' :: '*' :: (rest ++ t :: zs)) =
        (closesBeforeTerm (rest ++ t :: zs) ||
         hasLiveBlockOpen (rest ++ t :: zs)) by
      simp [hasLiveBlockOpen]]
    rw [closesBeforeTerm_buf t ht rest zs hnl' hpf', ih hnl' hpf']
    simp
  | case4 c d rest hcd ih =>
    have hnl' : (d :: rest).all (fun c => !isLineTerm c) = true := by
      simp [List.all_cons] at hnl ⊢
      exact hnl.2
    have hpf' : containsSub ['*', '/'] (d :: rest) = false :=
      containsSub_tail _ _ _ hpf
    rw [show ((c :: d :: rest) ++ t :: zs) =
        c :: ((d :: rest) ++ t :: zs) from rfl]
    rw [show hasLiveBlockOpen (c :: ((d :: rest) ++ t :: zs)) =
        hasLiveBlockOpen ((d :: rest) ++ t :: zs) by
      simp [hasLiveBlockOpen, hcd]]
    exact ih hnl' hpf'

theorem hasLive_cons_of (c : Char) (L : List Char)
    (h : ¬(c = '/' ∧ L.head? = some '*')) :
    hasLiveBlockOpen (c :: L) = hasLiveBlockOpen L := by
  cases L with
  | nil => rfl
  | cons z L' =>
    have hz : ¬(c = '/' ∧ z = '*') := by
      intro ⟨h1, h2⟩
      exact h ⟨h1, by simp [h2]⟩
    simp [hasLiveBlockOpen, hz]
theorem stripBlockGo_noLive (st : Option (List Char)) (l : List Char)
    (hds : containsSub ['/', '/'] ((st.getD []).reverse ++ l) = false)
    (hinv : ∀ buf, st = some buf →
      ∃ inner, buf = inner.reverse ++ ['*', '/'] ∧
        inner.all (fun c => !isLineTerm c) = true ∧
        containsSub ['*', '/'] inner = false ∧
        (inner.getLast? = some '*' → l.head? ≠ some '/')) :
    hasLiveBlockOpen (stripBlockGo st l) = false := by
  induction st, l using stripBlockGo.induct with
  | case1 => rfl
  | case2 c => rfl
  | case3 c d rest hcd ih =>
    rw [show stripBlockGo none (c :: d :: rest) =
        stripBlockGo (some ['*', '/']) rest by simp [stripBlockGo, hcd]]
    apply ih
    · obtain ⟨h1, h2⟩ := hcd
      subst h1; subst h2
      simpa using hds
    · intro buf hbuf
      refine ⟨[], by simpa using hbuf.symm, rfl, rfl, ?_⟩
      simp
  | case4 c d rest hcd ih =>
    rw [show stripBlockGo none (c :: d :: rest) =
        c :: stripBlockGo none (d :: rest) by simp [stripBlockGo, hcd]]
    simp only [Option.getD_none, List.reverse_nil, List.nil_append] at hds ih
    have hrec := ih (containsSub_tail _ _ _ hds) (by intro buf h; cases h)
    rw [hasLive_cons_of, hrec]
    intro ⟨hc, hh⟩
    subst hc
    have hd1 : ¬d = '*' := fun hd => hcd ⟨rfl, hd⟩
    have hd2 : ¬d = '/' := by
      intro hd
      rw [containsSub_cons] at hds
      simp [beginsWith, hd] at hds
    have := stripBlockGo_none_head d rest hd2
    rw [this] at hh
    exact hd1 (by simpa using hh)
  | case5 buf =>
    obtain ⟨inner, hb, hnl, hpf, _⟩ := hinv buf rfl
    rw [show stripBlockGo (some buf) [] = buf.reverse from rfl, hb]
    rw [show (inner.reverse ++ ['*', '/']).reverse = '/' :: '*' :: inner by
      simp]
    rw [show hasLiveBlockOpen ('/' :: '*' :: inner) =
        (closesBeforeTerm inner || hasLiveBlockOpen inner) by
      simp [hasLiveBlockOpen]]
    rw [closesBeforeTerm_of_pair_free inner hpf, hasLive_of_pair_free inner hpf]
    rfl
  | case6 buf c hterm ih =>
    obtain ⟨inner, hb, hnl, hpf, _⟩ := hinv buf rfl
    rw [show stripBlockGo (some buf) [c] =
        buf.reverse ++ c :: stripBlockGo none [] by simp [stripBlockGo, hterm]]
    rw [show stripBlockGo none [] = ([] : List Char) from rfl, hb]
    rw [show (inner.reverse ++ ['*', '/']).reverse = '/' :: '*' :: inner by
      simp]
    rw [show ((('/' : Char) :: '*' :: inner) ++ c :: []) =
        '/' :: '*' :: (inner ++ c :: []) from rfl]
    rw [show hasLiveBlockOpen ('/' :: '*' :: (inner ++ c :: [])) =
        (closesBeforeTerm (inner ++ c :: []) ||
         hasLiveBlockOpen (inner ++ c :: [])) by
      simp [hasLiveBlockOpen]]
    rw [closesBeforeTerm_buf c hterm inner [] hnl hpf,
      hasLive_buf c hterm inner [] hnl hpf]
    rfl
  | case7 buf c hterm ih =>
    obtain ⟨inner, hb, hnl, hpf, hk⟩ := hinv buf rfl
    rw [show stripBlockGo (some buf) [c] =
        stripBlockGo (some (c :: buf)) [] by simp [stripBlockGo, hterm]]
    apply ih
    · simp only [Option.getD_some, List.reverse_cons, List.append_nil]
      simpa using hds
    · intro buf' hbuf'
      refine ⟨inner ++ [c], ?_, ?_, ?_, ?_⟩
      · have : buf' = c :: buf := by injection hbuf'.symm
        rw [this, hb]
        simp
      · simp only [List.all_append, List.all_cons, List.all_nil]
        simp only [hnl, Bool.true_and, Bool.and_true]
        simpa using hterm
      · rw [containsSub_append_two]
        simp only [Bool.or_eq_false_iff]
        refine ⟨⟨hpf, ?_⟩, containsSub_single_two _ _ _⟩
        rcases hgl : inner.getLast? with _ | g
        · simp
        · simp only [Option.some.injEq]
          rcases Decidable.em (g = '*') with hg | hg
          · subst hg
            have := hk hgl
            simp at this
            simp [this]
          · simp [hg]
      · intro _
        simp
  | case8 buf c d rest hcd ih =>
    rw [show stripBlockGo (some buf) (c :: d :: rest) =
        stripBlockGo none rest by simp [stripBlockGo, hcd]]
    apply ih
    · simp only [Option.getD_none, List.reverse_nil, List.nil_append]
      simp only [Option.getD_some] at hds
      have h2 := containsSub_append_right _ _ _ hds
      exact containsSub_tail _ _ _ (containsSub_tail _ _ _ h2)
    · intro buf h; cases h
  | case9 buf c d rest hcd hterm ih =>
    obtain ⟨inner, hb, hnl, hpf, _⟩ := hinv buf rfl
    rw [show stripBlockGo (some buf) (c :: d :: rest) =
        buf.reverse ++ c :: stripBlockGo none (d :: rest) by
      simp [stripBlockGo, hcd, hterm]]
    simp only [Option.getD_some] at hds
    simp only [Option.getD_none, List.reverse_nil, List.nil_append] at ih
    have hrest : containsSub ['/', '/'] (d :: rest) = false :=
      containsSub_tail _ _ _ (containsSub_append_right _ _ _ hds)
    have hrec := ih hrest (by intro buf h; cases h)
    rw [hb]
    rw [show (inner.reverse ++ ['*', '/']).reverse = '/' :: '*' :: inner by
      simp]
    rw [show ((('/' : Char) :: '*' :: inner) ++
        c :: stripBlockGo none (d :: rest)) =
        '/' :: '*' :: (inner ++ c :: stripBlockGo none (d :: rest))
        from rfl]
    rw [show hasLiveBlockOpen ('/' :: '*' ::
        (inner ++ c :: stripBlockGo none (d :: rest))) =
        (closesBeforeTerm (inner ++ c :: stripBlockGo none (d :: rest)) ||
         hasLiveBlockOpen (inner ++ c :: stripBlockGo none (d :: rest))) by
      simp [hasLiveBlockOpen]]
    rw [closesBeforeTerm_buf c hterm inner _ hnl hpf,
      hasLive_buf c hterm inner _ hnl hpf, hrec]
    rfl
  | case10 buf c d rest hcd hterm ih =>
    obtain ⟨inner, hb, hnl, hpf, hk⟩ := hinv buf rfl
    rw [show stripBlockGo (some buf) (c :: d :: rest) =
        stripBlockGo (some (c :: buf)) (d :: rest) by
      simp [stripBlockGo, hcd, hterm]]
    apply ih
    · simp only [Option.getD_some, List.reverse_cons] at hds ⊢
      rw [List.append_assoc]
      simpa using hds
    · intro buf' hbuf'
      refine ⟨inner ++ [c], ?_, ?_, ?_, ?_⟩
      · have : buf' = c :: buf := by injection hbuf'.symm
        rw [this, hb]
        simp
      · simp only [List.all_append, List.all_cons, List.all_nil]
        simp only [hnl, Bool.true_and, Bool.and_true]
        simpa using hterm
      · rw [containsSub_append_two]
        simp only [Bool.or_eq_false_iff]
        refine ⟨⟨hpf, ?_⟩, containsSub_single_two _ _ _⟩
        rcases hgl : inner.getLast? with _ | g
        · simp
        · simp only [Option.some.injEq]
          rcases Decidable.em (g = '*') with hg | hg
          · subst hg
            have := hk hgl
            simp at this
            simp [this]
          · simp [hg]
      · intro hlast
        rw [List.getLast?_concat] at hlast
        have hcstar : c = '*' := by simpa using hlast
        intro hd
        have hd' : d = '/' := by simpa using hd
        exact hcd ⟨hcstar, hd'⟩

theorem goStep_false (s : String) (p : TemplateParameter) :
    goStep (s, false) p = (s ++ (", " ++ goParamTextSpec p), false) := by
  rcases p with ⟨kind, name, dv, pt, constraints⟩
  cases kind <;> cases constraints <;>
    simp [goStep, goParamTextSpec, String.append_assoc]

theorem goStep_true (s : String) (p : TemplateParameter) :
    goStep (s, true) p = (s ++ goParamTextSpec p, false) := by
  rcases p with ⟨kind, name, dv, pt, constraints⟩
  cases kind <;> cases constraints <;>
    simp [goStep, goParamTextSpec, String.append_assoc]

theorem goFoldl_false (t : List TemplateParameter) :
    ∀ s : String,
      (t.foldl goStep (s, false)).1 =
        s ++ commaJoinTail (t.map goParamTextSpec) := by
  induction t with
  | nil => intro s; simp [commaJoinTail]
  | cons p r ih =>
    intro s
    rw [List.foldl_cons, goStep_false, ih]
    simp [commaJoinTail, String.append_assoc]

theorem foldl_is_struct {α : Type} (f : ClassDecl → α → ClassDecl)
    (hf : ∀ cd a, (f cd a).is_struct = cd.is_struct) :
    ∀ (l : List α) (cd : ClassDecl),
      (l.foldl f cd).is_struct = cd.is_struct := by
  intro l
  induction l with
  | nil => intro cd; rfl
  | cons a t ih => intro cd; rw [List.foldl_cons, ih, hf]

theorem parseFieldsIn_is_struct (s : String) (cd : ClassDecl) :
    (parseFieldsIn s cd).is_struct = cd.is_struct := by
  unfold parseFieldsIn
  apply foldl_is_struct
  intro cd2 m
  split
  · rfl
  · apply foldl_is_struct
    intro cd3 nm
    rfl

theorem parseMethodsIn_is_struct (s : String) (cd : ClassDecl) :
    (parseMethodsIn s cd).is_struct = cd.is_struct := by
  unfold parseMethodsIn
  apply foldl_is_struct
  intro cd2 m
  rfl

theorem parseClassBody_is_struct (b : String) (cd : ClassDecl) :
    (parseClassBody b cd).is_struct = cd.is_struct := by
  unfold parseClassBody
  apply foldl_is_struct
  intro cd2 sec
  show (parseSection sec cd2).is_struct = cd2.is_struct
  unfold parseSection
  rw [parseMethodsIn_is_struct, parseFieldsIn_is_struct]

theorem classStep_all (ms : List (List Char × List Char × Caps)) :
    ∀ ir : IR, ir.classes.all (fun c => !c.is_struct) = true →
      ((ms.foldl classStep ir).classes.all (fun c => !c.is_struct)) = true := by
  induction ms with
  | nil => intro ir h; exact h
  | cons m t ih =>
    intro ir h
    rw [List.foldl_cons]
    apply ih
    show ((classStep ir m).classes.all (fun c => !c.is_struct)) = true
    unfold classStep
    simp only [List.all_append, h, Bool.true_and, List.all_cons, List.all_nil,
      Bool.and_true]
    rw [parseClassBody_is_struct]
    split
    · rfl
    · rfl

theorem parseString_all_not_struct (source : String) :
    ((parseString source).classes.all (fun c => !c.is_struct)) = true := by
  unfold parseString parseClasses
  exact classStep_all _ {} rfl

theorem sfinaeParams_isSome :
    ∀ ps : List Parameter, (∀ p ∈ ps, p.type.isSome = true) →
      (sfinaeParams ps).isSome = true := by
  intro ps
  induction ps with
  | nil => intro _; rfl
  | cons p t ih =>
    intro h
    have hp := h p (by simp)
    obtain ⟨ty, hty⟩ := Option.isSome_iff_exists.mp hp
    simp only [sfinaeParams, hty]
    split
    · rfl
    · exact ih (fun q hq => h q (by simp [hq]))

/-! # Theorems settling the claims -/

/-- Claim C1 (confirmed): for every `Function` that has been run through
`AsyncAnalyzer::analyzeFunction`, the flag `is_async` equals
`coroutine_info.is_coroutine OR futures non-empty OR async_tasks
non-empty`; the flag is computed, as the analyzer's final step, from
exactly those three facts of the analyzed function and is never set
independently of them. -/
theorem analyzeFunction_is_async_invariant (f : Function) :
    (analyzeFunction f).is_async =
      ((analyzeFunction f).coroutine_info.is_coroutine ||
       !(analyzeFunction f).futures.isEmpty ||
       !(analyzeFunction f).async_tasks.isEmpty) := rfl

/-- Claim C2 (confirmed): parsing
`class Foo { public: int x; void bar(){} };` with `parseString` yields
exactly one `ClassDecl` named `Foo`, with exactly one field `x` of
`Integer` kind, and exactly one method `bar` with an empty parameter list,
`is_virtual`, `is_const` and `is_pure_virtual` all false, and the body
string present (here with the value `""`, since the matched braces
enclose no text). -/
theorem parseString_c2_class_foo :
    (parseString c2src).classes =
      [{ name := "Foo", is_struct := false,
         fields := [{ name := "x",
                      type := some (.mk .Integer "int" false none) }],
         methods := [{ name := "bar",
                       return_type := some (.mk .Void "void" false none),
                       parameters := [], body := "",
                       is_virtual := false, is_const := false,
                       is_pure_virtual := false }],
         base_classes := [] }] := rfl

/-- Claim C3 (confirmed): for every path the file system cannot open,
`parseFile` fails with the `ReadError`
`"Cannot open file: " + path`, and `Transpiler::transpile` on such a path
returns failure with
`"Failed to parse input file: Cannot open file: " + path` stored as the
last error, leaving the file system untouched — code generation (and the
output-file open) is never reached. -/
theorem transpile_missing_input (fs : FileSystem) (opts : TranspilerOptions)
    (path : String) (h : fs path = none) :
    parseFile fs path = .error ("Cannot open file: " ++ path) ∧
    transpile fs (mkTranspiler opts) path =
      (false,
       { mkTranspiler opts with
           last_error :=
             "Failed to parse input file: Cannot open file: " ++ path },
       fs) := by
  have h1 : ("Failed to parse input file: " ++ "Cannot open file: " : String) =
      "Failed to parse input file: Cannot open file: " := by decide
  have hmsg : ("Failed to parse input file: " ++ ("Cannot open file: " ++ path)) =
      ("Failed to parse input file: Cannot open file: " ++ path) := by
    rw [← String.append_assoc, h1]
  constructor
  · simp [parseFile, h]
  · simp [transpile, parseSourceFile, parseFile, h, mkTranspiler, hmsg]

/-- Witness for C3: a concrete empty file system and path. -/
theorem transpile_missing_input_witness :
    parseFile (fun _ => none) "missing.cpp" =
      .error ("Cannot open file: " ++ "missing.cpp") ∧
    transpile (fun _ => none) (mkTranspiler ⟨.Rust, "out.rs"⟩) "missing.cpp" =
      (false,
       { mkTranspiler ⟨.Rust, "out.rs"⟩ with
           last_error :=
             "Failed to parse input file: Cannot open file: " ++ "missing.cpp" },
       (fun _ => none)) :=
  transpile_missing_input (fun _ => none) ⟨.Rust, "out.rs"⟩ "missing.cpp" rfl

/-- Claim C4 counterexample: template-parameter text
`<typename T, int N = 4>` does *not* parse to `[TypeParam(T),
NonTypeParam(N, "int", default "4")]` — because the `=` is only split off
*inside* the last whitespace token, the spaced default makes the last
token `4` the parameter name. -/
theorem parseTemplateParameters_spaced_default_counterexample :
    ((parseTemplateParameters "<typename T, int N = 4>").map
      (fun p => p.name)) ≠ ["T", "N"] := by decide

/-- Claim C4 (corrected): the `=default` of a non-type template parameter
is recognized only when attached to the last whitespace-separated token
without surrounding spaces.  `<typename T, int N=4>` yields
`[TypeParam(T), NonTypeParam(N, type "int", default "4")]`, while
`<typename T, int N = 4>` yields a second parameter named `"4"` with
declared-type text `"int N ="` and no default. -/
theorem parseTemplateParameters_default_attachment :
    parseTemplateParameters "<typename T, int N=4>" =
      [{ kind := .TypeParam, name := "T" },
       { kind := .NonType, name := "N", default_value := "4",
         param_type := some (.mk .Integer "int" false none) }] ∧
    parseTemplateParameters "<typename T, int N = 4>" =
      [{ kind := .TypeParam, name := "T" },
       { kind := .NonType, name := "4",
         param_type := some (.mk .Integer "int N =" false none) }] :=
  ⟨rfl, rfl⟩

/-- Claim C5 counterexample: rendering `[TypeParam(T), NonTypeParam(N)]`
to Target-Beta type parameters yields `"[T any, ]"`, not a bracketed list
containing only `T any`: the non-type parameter contributes a `", "`
separator to the rendered text. -/
theorem toGoTypeParameters_nontype_counterexample :
    toGoTypeParameters
      [{ kind := .TypeParam, name := "T" },
       { kind := .NonType, name := "N" }] = "[T any, ]" ∧
    ("[T any, ]" : String) ≠ "[T any]" :=
  ⟨rfl, by decide⟩

/-- Claim C5 (corrected): the Target-Beta rendering is a bracketed,
comma-separated list with one slot per template parameter; an
unconstrained `TypeParam` renders as `name any`, while non-type (and
nested-template) parameters render an empty slot — they contribute no
parameter text but still a separator, since `", "` is appended before the
parameter's kind is examined. -/
theorem toGoTypeParameters_eq_spec (ps : List TemplateParameter) :
    toGoTypeParameters ps = toGoTypeParametersSpec ps := by
  cases ps with
  | nil => rfl
  | cons p t =>
    simp only [toGoTypeParameters, toGoTypeParametersSpec, List.isEmpty_cons,
      List.map_cons]
    rw [List.foldl_cons, goStep_true, goFoldl_false]
    simp [commaJoin, String.append_assoc]

/-- Claim C6 counterexample: a block comment that spans two lines is *not*
removed by `removeComments` — ECMAScript `.` does not match a newline, so
`/\*.*?\*/` cannot match across lines and the comment text survives into
class recognition. -/
theorem removeComments_multiline_counterexample :
    removeComments mlCommentSrc = mlCommentSrc := rfl

/-- Claim C6 (corrected): before class recognition runs,
`removeComments` removes every `//` line comment and every `/* */` block
comment whose text contains no line terminator — afterwards no `//`
occurs and no terminator-free block comment remains — but a block comment
whose text spans a line terminator (LF, as in the counterexample, or CR,
as in the fourth conjunct) is left in place, since ECMAScript `.` matches
neither.  The third conjunct shows both comment kinds being removed on a
concrete input. -/
theorem removeComments_strips_line_and_inline_blocks (s : String) :
    containsSub ['/', '/'] (removeComments s).data = false ∧
    hasLiveBlockOpen (removeComments s).data = false ∧
    removeComments "a /* b */ c //d\ne" = "a  c \ne" ∧
    removeComments "/*a\rb*/" = "/*a\rb*/" := by
  have h1 := stripLineGo_noDS false s.data
  refine ⟨?_, ?_, rfl, rfl⟩
  · exact stripBlockGo_noDS none _ (by simpa using h1)
  · exact stripBlockGo_noLive none _ (by simpa using h1)
      (by intro buf hb; cases hb)

/-- Claim C7 (confirmed, spec-modelled): calling `generate` a second time
on the same IR, with the generator state left behind by the first call,
produces byte-identical output: generation is pure with respect to the
input IR, with no hidden incremental state carried across invocations.
The generator implementations are absent from the sources (only the
`CodeGenerator` interface of `include/codegen.h` is present), so
`generateCpp` is modelled from the spec's purity contract (§4.4). -/
theorem generate_pure_idempotent (target : TargetLanguage)
    (st : CodeGeneratorState) (ir : IR) :
    (generateCpp target (generateCpp target st ir).2 ir).1 =
      (generateCpp target st ir).1 := rfl

/-- Claim C8 counterexample: `parseType` on the empty string reaches
`trimmed.back()` with `trimmed` empty — an out-of-bounds access, modelled
as `none` — instead of returning a `Type`. -/
theorem parseType_empty_counterexample : parseType "" = none := rfl

/-- Claim C8 (corrected): `parseType` is *not* in-bounds on every input:
on an input that is empty, all whitespace, or whose const-stripped trim is
empty (bare `const`), and likewise on a bare `*` (whose recursive element
call receives the empty string), the `back()` call is performed on an
empty string.  On inputs whose (recursively reached) trimmed texts are
non-empty, parsing returns a `Type`, as the last two conjuncts
illustrate. -/
theorem parseType_empty_back_access :
    parseType "" = none ∧ parseType "   " = none ∧
    parseType "const" = none ∧ parseType " const " = none ∧
    parseType "*" = none ∧
    parseType "int" = some (.mk .Integer "int" false none) ∧
    parseType "const Foo&" =
      some (.mk .Reference "Foo&" true
        (some (.mk .Class "Foo" false none))) :=
  ⟨rfl, rfl, rfl, rfl, rfl, rfl, rfl⟩

/-- Claim C9 counterexample: `hasSFINAEPattern` dereferences
`func.return_type->name` unconditionally, so on a constructor — whose
`return_type` is the null pointer — it performs a null-pointer
dereference (modelled as `none`). -/
theorem hasSFINAEPattern_constructor_counterexample :
    hasSFINAEPattern { name := "Foo", is_constructor := true } = none := rfl

/-- Claim C9 (corrected): `hasSFINAEPattern` is free of null-pointer
dereferences only for a `Function` whose `return_type` is present and all
of whose parameter types are present; on a constructor (absent
`return_type`) it dereferences a null pointer (see the counterexample). -/
theorem hasSFINAEPattern_safe (f : Function)
    (hr : f.return_type.isSome = true)
    (hp : ∀ p ∈ f.parameters, p.type.isSome = true) :
    (hasSFINAEPattern f).isSome = true := by
  obtain ⟨rt, hrt⟩ := Option.isSome_iff_exists.mp hr
  simp only [hasSFINAEPattern, hrt]
  split
  · rfl
  · exact sfinaeParams_isSome f.parameters hp

/-- Witness for C9: a concrete function with a present return type and no
parameters. -/
theorem hasSFINAEPattern_safe_witness :
    (hasSFINAEPattern
      { name := "f",
        return_type := some (.mk .Void "void" false none) }).isSome = true :=
  hasSFINAEPattern_safe
    { name := "f", return_type := some (.mk .Void "void" false none) }
    rfl (by intro p hp; simp at hp)

/-- Claim C10 (confirmed): every `ClassDecl` produced by `parseString` has
`is_struct = false` — only `class`-keyword declarations are recognized —
and a `struct`-keyword declaration produces no `ClassDecl` at all, as the
second conjunct shows on `struct Foo { public: int x; };`. -/
theorem parseString_no_struct :
    (∀ source : String,
      ((parseString source).classes.all (fun c => !c.is_struct)) = true) ∧
    (parseString structSrc).classes = [] :=
  ⟨parseString_all_not_struct, rfl⟩

end HybridTranspiler
